import Mathlib

/-!
Verification of the expiring-content feed and tag-discovery core of the
snapconnect2 repository.

The TypeScript/React-Native source is shallowly embedded: JavaScript strings
become Lean `String`s, the JavaScript string primitives used by the source
(`trim`, `toLowerCase`, `includes`, the default `sort()` comparator, the
`x || y` fallback on possibly-undefined strings) become explicit Lean
functions, Firestore `Timestamp`s become millisecond `Int`s, and possibly
missing document fields become `Option`s.
-/

/-! ## JavaScript string primitives -/

/-- Embedding of JavaScript `String.prototype.toLowerCase()` (ASCII range,
which is all the source's tags use): lower-case every character. -/
def jsToLower (s : String) : String :=
  ⟨s.data.map Char.toLower⟩

/-- Both-ends whitespace trimming on a character list: drop leading
whitespace, then drop trailing whitespace (via `reverse`). -/
def trimList (l : List Char) : List Char :=
  (((l.dropWhile Char.isWhitespace).reverse).dropWhile Char.isWhitespace).reverse

/-- Embedding of JavaScript `String.prototype.trim()`. -/
def jsTrim (s : String) : String :=
  ⟨trimList s.data⟩

/-- Does `needle` occur as a contiguous run inside `hay`?  Helper for the
embedding of JavaScript `String.prototype.includes`. -/
def containsAux (needle : List Char) : List Char → Bool
  | [] => needle.isEmpty
  | hay@(_ :: rest) => List.isPrefixOf needle hay || containsAux needle rest

/-- Embedding of JavaScript `hay.includes(needle)` (substring test). -/
def jsIncludes (hay needle : String) : Bool :=
  containsAux needle.data hay.data

/-- Code-unit lexicographic strict comparison on character lists: the
comparison performed by JavaScript's default `Array.prototype.sort()`
comparator on strings. -/
def jsStrLtb : List Char → List Char → Bool
  | _, [] => false
  | [], _ :: _ => true
  | a :: as, b :: bs =>
    if a < b then true else if b < a then false else jsStrLtb as bs

/-- The (non-strict) string order realised by JavaScript's default
`sort()`: `a` may be placed before `b` iff `b` is not strictly below `a`. -/
def strLe (a b : String) : Prop :=
  jsStrLtb b.data a.data = false

instance : DecidableRel strLe :=
  fun a b => inferInstanceAs (Decidable (jsStrLtb b.data a.data = false))

/-- Embedding of the JavaScript fallback `x || d` where `x` is a
possibly-undefined string: `undefined` and the empty string are falsy. -/
def jsOrStr (x : Option String) (d : String) : String :=
  match x with
  | some s => if s = "" then d else s
  | none => d

/-! ## Character-level lemmas -/

theorem char_toNat_ofNat_valid (m : Nat) (h : m < 55296) :
    (Char.ofNat m).toNat = m := by
  unfold Char.ofNat
  rw [dif_pos (Or.inl h)]
  rfl

theorem char_toLower_of_upper (c : Char) (h : c.toNat ≥ 65 ∧ c.toNat ≤ 90) :
    c.toLower = Char.ofNat (c.toNat + 32) := by
  simp only [Char.toLower]
  rw [if_pos h]

theorem char_toLower_eq_self (c : Char) (h : ¬(c.toNat ≥ 65 ∧ c.toNat ≤ 90)) :
    c.toLower = c := by
  simp only [Char.toLower]
  rw [if_neg h]

theorem char_toLower_toLower (c : Char) :
    c.toLower.toLower = c.toLower := by
  by_cases h : c.toNat ≥ 65 ∧ c.toNat ≤ 90
  · rw [char_toLower_of_upper c h]
    apply char_toLower_eq_self
    rw [char_toNat_ofNat_valid (c.toNat + 32) (by omega)]
    omega
  · rw [char_toLower_eq_self c h, char_toLower_eq_self c h]

theorem char_isWhitespace_toNat (c : Char) (h : c.isWhitespace = true) :
    c.toNat = 32 ∨ c.toNat = 9 ∨ c.toNat = 13 ∨ c.toNat = 10 := by
  simp only [Char.isWhitespace, Bool.or_eq_true, decide_eq_true_eq] at h
  rcases h with ((h | h) | h) | h <;> subst h <;> simp [Char.toNat]

theorem char_isWhitespace_toLower (c : Char) :
    c.toLower.isWhitespace = c.isWhitespace := by
  by_cases h : c.toNat ≥ 65 ∧ c.toNat ≤ 90
  · rw [char_toLower_of_upper c h]
    have h32 : (Char.ofNat (c.toNat + 32)).toNat = c.toNat + 32 :=
      char_toNat_ofNat_valid _ (by omega)
    have hr : (Char.ofNat (c.toNat + 32)).isWhitespace = false := by
      cases hw : (Char.ofNat (c.toNat + 32)).isWhitespace
      · rfl
      · rcases char_isWhitespace_toNat _ hw with h' | h' | h' | h' <;>
          rw [h32] at h' <;> omega
    have hc : c.isWhitespace = false := by
      cases hw : c.isWhitespace
      · rfl
      · rcases char_isWhitespace_toNat _ hw with h' | h' | h' | h' <;> omega
    rw [hr, hc]
  · rw [char_toLower_eq_self c h]

/-! ## String-level lemmas -/

theorem jsToLower_data (s : String) : (jsToLower s).data = s.data.map Char.toLower := rfl

theorem jsToLower_jsToLower (s : String) :
    jsToLower (jsToLower s) = jsToLower s := by
  apply String.ext
  simp only [jsToLower_data, List.map_map]
  apply List.map_congr_left
  intro c _
  exact char_toLower_toLower c

theorem jsToLower_eq_empty_iff (s : String) : jsToLower s = "" ↔ s = "" := by
  constructor
  · intro h
    have hd : (jsToLower s).data = [] := by rw [h]
    rw [jsToLower_data] at hd
    have : s.data = [] := by
      cases hs : s.data with
      | nil => rfl
      | cons a l => rw [hs] at hd; simp at hd
    exact String.ext (by rw [this])
  · intro h; rw [h]; rfl

theorem dropWhile_head_not {p : Char → Bool} :
    ∀ (l : List Char) (a : Char), (l.dropWhile p).head? = some a → p a = false
  | [], a => by intro h; simp [List.dropWhile] at h
  | b :: l, a => by
    intro h
    rw [List.dropWhile_cons] at h
    by_cases hb : p b = true
    · rw [if_pos hb] at h
      exact dropWhile_head_not l a h
    · rw [if_neg hb] at h
      simp at h
      subst h
      simpa using hb

theorem dropWhile_eq_self_of_head {p : Char → Bool} (l : List Char)
    (h : ∀ a, l.head? = some a → p a = false) : l.dropWhile p = l := by
  cases l with
  | nil => rfl
  | cons a l =>
    rw [List.dropWhile_cons, if_neg]
    simp [h a rfl]

theorem getLast?_of_suffix {l t : List Char} (h : l <:+ t) (hne : l ≠ []) :
    l.getLast? = t.getLast? := by
  obtain ⟨u, rfl⟩ := h
  rw [List.getLast?_append]
  cases hl : l.getLast? with
  | none => exact absurd (List.getLast?_eq_none_iff.mp hl) hne
  | some a => rfl

theorem trimList_head {l : List Char} {a : Char}
    (h : (trimList l).head? = some a) : Char.isWhitespace a = false := by
  unfold trimList at h
  rw [List.head?_reverse] at h
  have hsuf := List.dropWhile_suffix (l := ((l.dropWhile Char.isWhitespace).reverse))
    (p := Char.isWhitespace)
  have hne : ((l.dropWhile Char.isWhitespace).reverse.dropWhile Char.isWhitespace) ≠ [] := by
    intro hnil
    rw [hnil] at h
    simp at h
  rw [getLast?_of_suffix hsuf hne] at h
  rw [List.getLast?_reverse] at h
  exact dropWhile_head_not _ _ h

theorem trimList_trimList (l : List Char) : trimList (trimList l) = trimList l := by
  have h1 : (trimList l).dropWhile Char.isWhitespace = trimList l :=
    dropWhile_eq_self_of_head _ (fun a ha => trimList_head ha)
  have h2 : (trimList l).reverse.dropWhile Char.isWhitespace = (trimList l).reverse := by
    apply dropWhile_eq_self_of_head
    intro a ha
    rw [List.head?_reverse] at ha
    unfold trimList at ha
    rw [List.getLast?_reverse] at ha
    exact dropWhile_head_not _ _ ha
  have expand : ∀ m : List Char,
      trimList m = ((m.dropWhile Char.isWhitespace).reverse.dropWhile Char.isWhitespace).reverse :=
    fun m => rfl
  rw [expand (trimList l), h1, h2, List.reverse_reverse]

theorem jsTrim_jsTrim (s : String) : jsTrim (jsTrim s) = jsTrim s :=
  String.ext (trimList_trimList s.data)

theorem trimList_map_toLower (l : List Char) :
    trimList (l.map Char.toLower) = (trimList l).map Char.toLower := by
  have hws : (Char.isWhitespace ∘ Char.toLower) = Char.isWhitespace := by
    funext c
    exact char_isWhitespace_toLower c
  unfold trimList
  rw [List.dropWhile_map, hws, ← List.map_reverse, List.dropWhile_map, hws,
    ← List.map_reverse]

theorem jsTrim_jsToLower (s : String) :
    jsTrim (jsToLower s) = jsToLower (jsTrim s) :=
  String.ext (trimList_map_toLower s.data)

/-- The full per-tag canonicalisation `t.trim().toLowerCase()` is a closure
operator: applying it twice is the same as applying it once. -/
theorem normStr_idem (t : String) :
    jsToLower (jsTrim (jsToLower (jsTrim t))) = jsToLower (jsTrim t) := by
  rw [jsTrim_jsToLower, jsTrim_jsTrim, jsToLower_jsToLower]

/-! ## Order lemmas for the JavaScript sort comparator -/

theorem jsStrLtb_nil_right (l : List Char) : jsStrLtb l [] = false := by
  cases l <;> rfl

theorem jsStrLtb_irrefl : ∀ l : List Char, jsStrLtb l l = false
  | [] => rfl
  | a :: as => by
    unfold jsStrLtb
    rw [if_neg (lt_irrefl a), if_neg (lt_irrefl a)]
    exact jsStrLtb_irrefl as

theorem jsStrLtb_cons (a b : Char) (as bs : List Char) :
    jsStrLtb (a :: as) (b :: bs) =
      if a < b then true else if b < a then false else jsStrLtb as bs := rfl

theorem jsStrLtb_cons_iff (a b : Char) (as bs : List Char) :
    jsStrLtb (a :: as) (b :: bs) = true ↔
      a < b ∨ (a = b ∧ jsStrLtb as bs = true) := by
  rw [jsStrLtb_cons]
  rcases lt_trichotomy a b with h | h | h
  · rw [if_pos h]
    simp [h]
  · subst h
    rw [if_neg (lt_irrefl a), if_neg (lt_irrefl a)]
    simp
  · rw [if_neg (lt_asymm h), if_pos h]
    constructor
    · intro hf
      exact absurd hf Bool.false_ne_true
    · rintro (hlt | ⟨rfl, _⟩)
      · exact absurd hlt (lt_asymm h)
      · exact absurd h (lt_irrefl a)

theorem jsStrLtb_trans : ∀ l₁ l₂ l₃ : List Char,
    jsStrLtb l₁ l₂ = true → jsStrLtb l₂ l₃ = true → jsStrLtb l₁ l₃ = true
  | _, l₂, [] => by
    intro _ h2
    rw [jsStrLtb_nil_right l₂] at h2
    exact absurd h2 Bool.false_ne_true
  | a :: as, [], _ :: _ => by
    intro h1 _
    rw [jsStrLtb_nil_right] at h1
    exact absurd h1 Bool.false_ne_true
  | [], [], _ :: _ => by
    intro h1 _
    exact absurd h1 Bool.false_ne_true
  | [], _ :: _, _ :: _ => by
    intro _ _
    rfl
  | a :: as, b :: bs, c :: cs => by
    intro h1 h2
    rw [jsStrLtb_cons_iff] at h1 h2 ⊢
    rcases h1 with hab | ⟨rfl, h1⟩
    · rcases h2 with hbc | ⟨rfl, _⟩
      · exact Or.inl (lt_trans hab hbc)
      · exact Or.inl hab
    · rcases h2 with hac | ⟨rfl, h2⟩
      · exact Or.inl hac
      · exact Or.inr ⟨rfl, jsStrLtb_trans as bs cs h1 h2⟩

theorem jsStrLtb_eq_of_not_lt : ∀ l₁ l₂ : List Char,
    jsStrLtb l₁ l₂ = false → jsStrLtb l₂ l₁ = false → l₁ = l₂
  | [], [] => by intro _ _; rfl
  | [], _ :: _ => by
    intro h1 _
    exact absurd h1 (by simp [jsStrLtb])
  | _ :: _, [] => by
    intro _ h2
    exact absurd h2 (by simp [jsStrLtb])
  | a :: as, b :: bs => by
    intro h1 h2
    rw [Bool.eq_false_iff, Ne, jsStrLtb_cons_iff] at h1 h2
    push_neg at h1 h2
    rcases lt_trichotomy a b with h | h | h
    · exact absurd h1.1 (not_le_of_lt h)
    · subst h
      have has := h1.2 rfl
      have hbs := h2.2 rfl
      simp only [ne_eq, Bool.not_eq_true] at has hbs
      rw [jsStrLtb_eq_of_not_lt as bs has hbs]
    · exact absurd h2.1 (not_le_of_lt h)

theorem strLe_total (a b : String) : strLe a b ∨ strLe b a := by
  unfold strLe
  by_cases h : jsStrLtb b.data a.data = false
  · exact Or.inl h
  · rw [Bool.not_eq_false] at h
    refine Or.inr ?_
    cases hab : jsStrLtb a.data b.data
    · rfl
    · have := jsStrLtb_trans _ _ _ h hab
      rw [jsStrLtb_irrefl] at this
      exact absurd this Bool.false_ne_true

instance : IsTotal String strLe := ⟨strLe_total⟩

instance : IsTrans String strLe := by
  constructor
  intro a b c h1 h2
  unfold strLe at h1 h2 ⊢
  by_contra hca
  rw [Bool.not_eq_false] at hca
  by_cases hab : jsStrLtb a.data b.data = true
  · by_cases hbc : jsStrLtb b.data c.data = true
    · have hac := jsStrLtb_trans _ _ _ hab hbc
      have := jsStrLtb_trans _ _ _ hca hac
      rw [jsStrLtb_irrefl] at this
      exact absurd this Bool.false_ne_true
    · rw [Bool.not_eq_true] at hbc
      rw [← jsStrLtb_eq_of_not_lt _ _ hbc h2] at hca
      rw [h1] at hca
      exact absurd hca Bool.false_ne_true
  · rw [Bool.not_eq_true] at hab
    rw [jsStrLtb_eq_of_not_lt _ _ hab h1] at hca
    rw [h2] at hca
    exact absurd hca Bool.false_ne_true

instance : IsAntisymm String strLe := by
  constructor
  intro a b h1 h2
  exact String.ext (jsStrLtb_eq_of_not_lt a.data b.data h2 h1)

/-! ## Data model

Timestamps are UTC milliseconds (`Int`), the value underlying both
JavaScript `Date.getTime()` and Firestore `Timestamp.toMillis()`.
A raw Firestore document may lack fields, hence the `Option` types. -/

/-- A raw document of the `snaps` collection as read from the store.
`interests` is `none` when the field is missing/undefined. -/
structure SnapDoc where
  id : String
  url : String
  caption : String
  owner : String
  interests : Option (List String)
  expiresAt : Int
  createdAt : Int
deriving DecidableEq, Repr

/-- A raw document of the `users` collection; every field may be absent. -/
structure UserDoc where
  email : Option String
  firstName : Option String
  interests : Option (List String)
deriving DecidableEq, Repr

/-- The in-memory `Snap` record built by `fetchSnaps` in the Discover screen
(part_008 lines 101-111): all fields defaulted, owner data joined in. -/
structure Snap where
  id : String
  url : String
  caption : String
  owner : String
  interests : List String
  expiresAt : Int
  createdAt : Int
  ownerEmail : String
  ownerFirstName : String
deriving DecidableEq, Repr

/-- The document written by the capture path (`snapData` in
CameraScreen.tsx lines 393-400 and part_007 lines 507-515). -/
structure SnapData where
  url : String
  caption : String
  owner : String
  interests : List String
  expiresAt : Int
  createdAt : Int
  ownerEmail : String
deriving DecidableEq, Repr

/-! ## Operations -/

/-- Embedding of `saveSnapToFirestore` (part_007 lines 503-515): the snap
document written on capture.  `nowMs` is the single `Date.now()` /
`Timestamp.now()` clock reading taken while building the object literal.
JavaScript `tags.length ? tags.map(t => t.toLowerCase()) : ["misc"]`. -/
def saveSnapToFirestore (nowMs : Int) (imageUrl captionText ownerUid : String)
    (tags : List String) (email : String) : SnapData :=
  { url := imageUrl
    caption := captionText
    owner := ownerUid
    interests := if tags.length ≠ 0 then tags.map jsToLower else ["misc"]
    expiresAt := nowMs + 24 * 60 * 60 * 1000
    createdAt := nowMs
    ownerEmail := email }

/-- The only post-creation mutations of a `snaps` document anywhere in the
repository: the tag editor's save (part_004 lines 34-43, `updateDoc` with
`interests`) and the caption editors (SnapViewerScreen.tsx line 138,
FeedScreen.tsx line 350, `updateDoc` with `caption`).  Owner-initiated
`deleteDoc` removes the whole document and is not a field update. -/
inductive SnapUpdate where
  | updateTags (localTags : List String)
  | updateCaption (editedCaption : String)

/-- Effect of each `updateDoc` call on the stored snap document. -/
def applySnapUpdate : SnapUpdate → SnapData → SnapData
  | .updateTags localTags, s =>
      { s with interests := if localTags.length ≠ 0 then localTags else ["misc"] }
  | .updateCaption c, s => { s with caption := jsTrim c }

/-- Embedding of lodash `uniq`: keep the first occurrence of each element. -/
def uniq (l : List String) : List String :=
  l.foldl (fun acc t => if t ∈ acc then acc else acc ++ [t]) []

/-- JavaScript's default `Array.prototype.sort()` on strings: ascending by
the code-unit comparator. -/
def sortTags (l : List String) : List String :=
  List.insertionSort strLe l

/-- Embedding of the tag aggregator (part_008 lines 38-49): flatten
`interests ?? []` over every snap document, lower-case, de-duplicate with
lodash `uniq`, then `.sort()`. -/
def aggregateTags (docs : List SnapDoc) : List String :=
  let everyTag := docs.flatMap fun d => d.interests.getD []
  let normalizedTags := everyTag.map jsToLower
  sortTags (uniq normalizedTags)

/-- Embedding of the owner join and field defaulting performed per document
by `fetchSnaps` (part_008 lines 84-111).  `users` is the `users` collection:
`none` models `!userDoc.exists()` and the error path of `getDoc`, both of
which leave the `'Unknown'` / `''` defaults in place. -/
def assembleSnap (users : String → Option UserDoc) (d : SnapDoc) : Snap :=
  let ownerEmail :=
    match users d.owner with
    | some u => jsOrStr u.email "Unknown"
    | none => "Unknown"
  let ownerFirstName :=
    match users d.owner with
    | some u => jsOrStr u.firstName ""
    | none => ""
  { id := d.id
    url := d.url
    caption := d.caption
    owner := d.owner
    interests := d.interests.getD []
    expiresAt := d.expiresAt
    createdAt := d.createdAt
    ownerEmail := ownerEmail
    ownerFirstName := ownerFirstName }

/-- The server-side liveness query `where("expiresAt", ">", Timestamp.now())`
(part_008 lines 76-79): keep exactly the snaps with `nowMs < expiresAt`. -/
def liveSnaps (nowMs : Int) (snaps : List Snap) : List Snap :=
  snaps.filter fun s => nowMs < s.expiresAt

/-- Embedding of the client-side tag filter `filteredSnaps` (part_008 lines
114-126).  The JavaScript guard is `if (!snap.interests || !selected) return
false`; after assembly `snap.interests` is always an array (hence truthy),
so the guard reduces to rejecting everything when `selected` is the empty
string.  Otherwise keep the snap iff some lower-cased interest `.includes`
the lower-cased selected term. -/
def discoveryFilter (selected : String) (snaps : List Snap) : List Snap :=
  snaps.filter fun snap =>
    if selected = "" then false
    else
      (snap.interests.map jsToLower).any fun interest =>
        jsIncludes interest (jsToLower selected)

/-- The local sort `filteredSnaps.sort((a, b) => bTime - aTime)` (part_008
lines 129-133): expiry descending. -/
def sortByExpiresDesc (snaps : List Snap) : List Snap :=
  List.insertionSort (fun a b : Snap => b.expiresAt ≤ a.expiresAt) snaps

/-- The full result of `fetchSnaps` for a given snapshot of assembled snaps:
liveness query, then tag filter, then expiry-descending sort. -/
def fetchSnapsResult (nowMs : Int) (snaps : List Snap) (selected : String) :
    List Snap :=
  sortByExpiresDesc (discoveryFilter selected (liveSnaps nowMs snaps))

/-- Embedding of the search box's `onSubmitEditing` (part_008 lines 221-231):
when the trimmed input is non-empty, resolve it to the new `selected` value
(exact match in `allTags` first, then first substring match, then the
trimmed lower-cased term itself); a blank input changes nothing (`none`). -/
def resolveSearch (search : String) (allTags : List String) : Option String :=
  if jsTrim search ≠ "" then
    let searchTerm := jsToLower (jsTrim search)
    let exactMatch := allTags.find? fun tag => jsToLower tag == searchTerm
    let partialMatch := allTags.find? fun tag => jsIncludes (jsToLower tag) searchTerm
    some (jsOrStr exactMatch (jsOrStr partialMatch searchTerm))
  else
    none

/-- Embedding of the chip row's display order
`[...userInterests, ...allTags.filter(t => !userInterests.includes(t))]`
(part_008 lines 66 and 239). -/
def displayTags (userInterests allTags : List String) : List String :=
  userInterests ++ allTags.filter fun t => !(userInterests.contains t)

/-- Embedding of `TagEditor.handleAddTag`: trim and lower-case the input and
append it unless it is empty or already present. -/
def handleAddTag (tags : List String) (inputValue : String) : List String :=
  let newTag := jsToLower (jsTrim inputValue)
  if newTag ≠ "" ∧ newTag ∉ tags then tags ++ [newTag] else tags

/-- The composite tag-normalization pipeline: every tag enters through
`handleAddTag` (trim, lower-case, drop empties, de-duplicate), and
`SettingsScreen.handleSave` (lines 60-67) stores
`interests.slice(0, 5).map(i => i.toLowerCase())`. -/
def normalizeTags (raw : List String) : List String :=
  ((raw.foldl handleAddTag []).take 5).map jsToLower

/-- Embedding of `FeedCard.getTimeRemaining` (FeedCard.tsx lines 44-57).
`Math.floor` of the millisecond difference over an hour/minute is `Int.fdiv`. -/
def getTimeRemaining (nowMs expiresMs : Int) : String :=
  let diffMs := expiresMs - nowMs
  let diffHours := diffMs.fdiv (1000 * 60 * 60)
  let diffMinutes := diffMs.fdiv (1000 * 60)
  if diffHours > 0 then s!"{diffHours}h left"
  else if diffMinutes > 0 then s!"{diffMinutes}m left"
  else "Expired"

/-- Embedding of `FeedCard.getTimeAgo` (FeedCard.tsx lines 29-42). -/
def getTimeAgo (nowMs dateMs : Int) : String :=
  let diffMs := nowMs - dateMs
  let diffHours := diffMs.fdiv (1000 * 60 * 60)
  let diffMinutes := diffMs.fdiv (1000 * 60)
  if diffHours > 0 then s!"{diffHours}h ago"
  else if diffMinutes > 0 then s!"{diffMinutes}m ago"
  else "Just now"

/-! ## Raw documents with possibly wrong-typed fields

The `Option (List String)` shape above covers only a *missing* `interests`
field.  A Firestore document may instead hold a wrong-typed value (a
string, a number, ...), and the source has no validation: such a value
flows into `.map` / `.toLowerCase` calls that raise a `TypeError` at
runtime.  The following refinement models the `interests` slot as a
JavaScript value and the affected pipelines in `Except`, with an `error`
for a raised `TypeError`. -/

/-- A JavaScript value sitting in a document's `interests` slot:
absent/null, a well-typed array of strings, or a wrong-typed primitive. -/
inductive JsField where
  | missing
  | strArr (tags : List String)
  | str (s : String)
  | num (n : Int)
deriving DecidableEq, Repr

/-- JavaScript truthiness of such a value: `undefined`/`null` are falsy,
arrays are always truthy, a string is truthy iff non-empty, a number is
truthy iff non-zero. -/
def JsField.truthy : JsField → Bool
  | .missing => false
  | .strArr _ => true
  | .str s => !(s == "")
  | .num n => !(n == 0)

/-- `data.interests || []` in the assembly loop (part_008 line 106): a
falsy value is replaced by the empty array, any truthy value — including a
wrong-typed one — passes through unchanged. -/
def jsOrEmptyArr (v : JsField) : JsField :=
  if v.truthy then v else .strArr []

/-- A raw `snaps` document whose `interests` slot is an arbitrary
JavaScript value. -/
structure RawSnapDoc where
  id : String
  url : String
  caption : String
  owner : String
  interests : JsField
  expiresAt : Int
  createdAt : Int
deriving DecidableEq, Repr

/-- The record pushed onto `allSnaps` by the assembly loop of part_008
lines 101-111, before the tag filter runs: the `interests` slot may still
hold a wrong-typed value (the loop only applies `|| []`, no validation). -/
structure RawSnap where
  id : String
  url : String
  caption : String
  owner : String
  interests : JsField
  expiresAt : Int
  createdAt : Int
  ownerEmail : String
  ownerFirstName : String
deriving DecidableEq, Repr

/-- The assembly loop of part_008 lines 84-111 on one raw document:
`interests: data.interests || []`, owner join with the `'Unknown'` / `''`
defaults for a missing user document or missing fields. -/
def assembleRawSnap (users : String → Option UserDoc) (d : RawSnapDoc) : RawSnap :=
  let ownerEmail :=
    match users d.owner with
    | some u => jsOrStr u.email "Unknown"
    | none => "Unknown"
  let ownerFirstName :=
    match users d.owner with
    | some u => jsOrStr u.firstName ""
    | none => ""
  { id := d.id
    url := d.url
    caption := d.caption
    owner := d.owner
    interests := jsOrEmptyArr d.interests
    expiresAt := d.expiresAt
    createdAt := d.createdAt
    ownerEmail := ownerEmail
    ownerFirstName := ownerFirstName }

/-- An element of the `everyTag` array built by the aggregator's
`flatMap` (part_008 line 42): a string, or a wrong-typed leftover. -/
inductive JsTagElem where
  | str (s : String)
  | num (n : Int)
deriving DecidableEq, Repr

/-- The aggregator's `flatMap` callback `d.data().interests ?? []`
(part_008 line 42): a nullish value coalesces to `[]`; an array is
flattened one level; any other value is inserted whole as one element
(JavaScript `flatMap` only flattens arrays). -/
def flatMapInterests : JsField → List JsTagElem
  | .missing => []
  | .strArr tags => tags.map .str
  | .str s => [.str s]
  | .num n => [.num n]

/-- `tag.toLowerCase()` on one `everyTag` element (part_008 line 44):
works on strings, raises a `TypeError` on anything else. -/
def elemToLower : JsTagElem → Except String String
  | .str s => .ok (jsToLower s)
  | .num _ => .error "TypeError: tag.toLowerCase is not a function"

/-- `everyTag.map(tag => tag.toLowerCase())` (part_008 line 44): the map
completes, or the first bad element raises and aborts it. -/
def mapToLowerElems : List JsTagElem → Except String (List String)
  | [] => .ok []
  | e :: rest =>
    match elemToLower e, mapToLowerElems rest with
    | .ok s, .ok tail => .ok (s :: tail)
    | .error err, _ => .error err
    | _, .error err => .error err

/-- The tag aggregator of part_008 lines 38-49 over raw documents: when
the lower-casing map raises, the whole `onSnapshot` callback aborts and
`setAllTags` never runs (`error`); otherwise de-duplicate and sort. -/
def aggregateRawTags (docs : List RawSnapDoc) : Except String (List String) :=
  let everyTag := docs.flatMap fun d => flatMapInterests d.interests
  match mapToLowerElems everyTag with
  | .ok normalizedTags => .ok (sortTags (uniq normalizedTags))
  | .error e => .error e

/-- The filter predicate of `filteredSnaps` (part_008 lines 115-126) over a
possibly wrong-typed `interests` value: the `!snap.interests || !selected`
guard returns `false` without touching the value; past the guard,
`snap.interests.map(...)` raises a `TypeError` unless the value is an
array. -/
def filterRawSnapPred (selected : String) (snap : RawSnap) : Except String Bool :=
  if !snap.interests.truthy || selected == "" then .ok false
  else
    match snap.interests with
    | .strArr tags =>
        .ok ((tags.map jsToLower).any fun interest =>
          jsIncludes interest (jsToLower selected))
    | _ => .error "TypeError: snap.interests.map is not a function"

/-- `allSnaps.filter(...)`: evaluates the predicate left to right; the
first raised `TypeError` aborts the whole filter. -/
def filterRawSnaps (selected : String) : List RawSnap → Except String (List RawSnap)
  | [] => .ok []
  | snap :: rest =>
    match filterRawSnapPred selected snap, filterRawSnaps selected rest with
    | .ok keep, .ok tail => .ok (if keep then snap :: tail else tail)
    | .error e, _ => .error e
    | _, .error e => .error e

/-- The full `fetchSnaps` of part_008 lines 72-142 over raw documents:
liveness query, assembly (`interests: data.interests || []`, owner join),
tag filter, expiry-descending sort — all inside the `try`; any raised
`TypeError` lands in the `catch`, which runs `setSnaps([])` and so empties
the entire result. -/
def fetchSnapsRawResult (users : String → Option UserDoc) (nowMs : Int)
    (docs : List RawSnapDoc) (selected : String) : List RawSnap :=
  let allSnaps := (docs.filter fun d => nowMs < d.expiresAt).map (assembleRawSnap users)
  match filterRawSnaps selected allSnaps with
  | .ok filteredSnaps =>
      List.insertionSort (fun a b : RawSnap => b.expiresAt ≤ a.expiresAt) filteredSnaps
  | .error _ => []

/-! ## Lemmas about `uniq`, `sortTags` and `aggregateTags` -/

theorem mem_uniq_foldl (l : List String) :
    ∀ (acc : List String) (x : String),
      x ∈ l.foldl (fun acc t => if t ∈ acc then acc else acc ++ [t]) acc ↔
        x ∈ acc ∨ x ∈ l := by
  induction l with
  | nil => intro acc x; simp
  | cons a l ih =>
    intro acc x
    rw [List.foldl_cons]
    by_cases ha : a ∈ acc
    · rw [if_pos ha, ih]
      constructor
      · rintro (hx | hx)
        · exact Or.inl hx
        · exact Or.inr (List.mem_cons_of_mem a hx)
      · rintro (hx | hx)
        · exact Or.inl hx
        · rcases List.mem_cons.mp hx with rfl | hx
          · exact Or.inl ha
          · exact Or.inr hx
    · rw [if_neg ha, ih]
      simp only [List.mem_append, List.mem_singleton, List.mem_cons]
      tauto

theorem nodup_uniq_foldl (l : List String) :
    ∀ acc : List String, acc.Nodup →
      (l.foldl (fun acc t => if t ∈ acc then acc else acc ++ [t]) acc).Nodup := by
  induction l with
  | nil => intro acc h; simpa using h
  | cons a l ih =>
    intro acc hacc
    rw [List.foldl_cons]
    by_cases ha : a ∈ acc
    · rw [if_pos ha]
      exact ih acc hacc
    · rw [if_neg ha]
      refine ih _ (List.Nodup.append hacc (List.nodup_singleton a) ?_)
      intro x hx hxa
      rw [List.mem_singleton] at hxa
      subst hxa
      exact ha hx

theorem mem_uniq (l : List String) (x : String) : x ∈ uniq l ↔ x ∈ l := by
  unfold uniq
  rw [mem_uniq_foldl]
  simp

theorem uniq_nodup (l : List String) : (uniq l).Nodup :=
  nodup_uniq_foldl l [] List.nodup_nil

theorem mem_sortTags (l : List String) (x : String) : x ∈ sortTags l ↔ x ∈ l :=
  List.mem_insertionSort strLe

theorem sortTags_sorted (l : List String) : List.Sorted strLe (sortTags l) :=
  List.sorted_insertionSort strLe l

theorem sortTags_perm (l : List String) : (sortTags l).Perm l :=
  List.perm_insertionSort strLe l

theorem mem_aggregateTags (docs : List SnapDoc) (t : String) :
    t ∈ aggregateTags docs ↔
      ∃ d ∈ docs, ∃ i ∈ d.interests.getD [], jsToLower i = t := by
  unfold aggregateTags
  rw [mem_sortTags, mem_uniq]
  simp only [List.mem_map, List.mem_flatMap]
  constructor
  · rintro ⟨i, ⟨d, hd, hi⟩, rfl⟩
    exact ⟨d, hd, i, hi, rfl⟩
  · rintro ⟨d, hd, i, hi, rfl⟩
    exact ⟨i, ⟨d, hd, hi⟩, rfl⟩

theorem aggregateTags_nodup (docs : List SnapDoc) : (aggregateTags docs).Nodup :=
  (sortTags_perm _).nodup_iff.mpr (uniq_nodup _)

theorem aggregateTags_sorted (docs : List SnapDoc) :
    List.Sorted strLe (aggregateTags docs) :=
  sortTags_sorted _

theorem aggregateTags_perm_eq {docs₁ docs₂ : List SnapDoc}
    (h : docs₁.Perm docs₂) : aggregateTags docs₁ = aggregateTags docs₂ := by
  have hflat : (docs₁.flatMap fun d => d.interests.getD []).Perm
      (docs₂.flatMap fun d => d.interests.getD []) :=
    List.Perm.flatMap_right _ h
  have hmap := hflat.map jsToLower
  have huniq : (uniq ((docs₁.flatMap fun d => d.interests.getD []).map jsToLower)).Perm
      (uniq ((docs₂.flatMap fun d => d.interests.getD []).map jsToLower)) := by
    rw [List.perm_ext_iff_of_nodup (uniq_nodup _) (uniq_nodup _)]
    intro a
    rw [mem_uniq, mem_uniq]
    exact hmap.mem_iff
  unfold aggregateTags
  exact List.eq_of_perm_of_sorted
    ((sortTags_perm _).trans (huniq.trans (sortTags_perm _).symm))
    (sortTags_sorted _) (sortTags_sorted _)

/-! ## Lemmas about `handleAddTag` and `normalizeTags` -/

/-- The canonical-form predicate: a tag already in the shape produced by
`handleAddTag` (trimmed, lower-cased, non-empty). -/
def canonTag (e : String) : Prop :=
  jsToLower (jsTrim e) = e ∧ e ≠ ""

theorem canonTag_normStr (t : String) (h : jsToLower (jsTrim t) ≠ "") :
    canonTag (jsToLower (jsTrim t)) :=
  ⟨normStr_idem t, h⟩

theorem canonTag_toLower_fixed {e : String} (h : canonTag e) : jsToLower e = e := by
  conv_lhs => rw [← h.1]
  rw [jsToLower_jsToLower, h.1]

theorem foldl_handleAddTag_canon (l : List String) :
    ∀ acc : List String, (∀ e ∈ acc, canonTag e) →
      ∀ e ∈ l.foldl handleAddTag acc, canonTag e := by
  induction l with
  | nil => intro acc hacc e he; exact hacc e he
  | cons a l ih =>
    intro acc hacc e he
    rw [List.foldl_cons] at he
    refine ih _ ?_ e he
    intro x hx
    unfold handleAddTag at hx
    by_cases hcond : jsToLower (jsTrim a) ≠ "" ∧ jsToLower (jsTrim a) ∉ acc
    · rw [if_pos hcond] at hx
      rcases List.mem_append.mp hx with hx | hx
      · exact hacc x hx
      · rw [List.mem_singleton] at hx
        subst hx
        exact canonTag_normStr a hcond.1
    · rw [if_neg hcond] at hx
      exact hacc x hx

theorem foldl_handleAddTag_nodup (l : List String) :
    ∀ acc : List String, acc.Nodup → (l.foldl handleAddTag acc).Nodup := by
  induction l with
  | nil => intro acc h; exact h
  | cons a l ih =>
    intro acc hacc
    rw [List.foldl_cons]
    refine ih _ ?_
    unfold handleAddTag
    by_cases hcond : jsToLower (jsTrim a) ≠ "" ∧ jsToLower (jsTrim a) ∉ acc
    · rw [if_pos hcond]
      refine List.Nodup.append hacc (List.nodup_singleton _) ?_
      intro x hx hxa
      rw [List.mem_singleton] at hxa
      subst hxa
      exact hcond.2 hx
    · rw [if_neg hcond]
      exact hacc

theorem foldl_handleAddTag_fixed (l : List String) :
    ∀ acc : List String, (∀ e ∈ l, canonTag e ∧ e ∉ acc) → l.Nodup →
      l.foldl handleAddTag acc = acc ++ l := by
  induction l with
  | nil => intro acc _ _; simp
  | cons a l ih =>
    intro acc h hnd
    rw [List.foldl_cons]
    have ha := h a (List.mem_cons_self a l)
    have hstep : handleAddTag acc a = acc ++ [a] := by
      unfold handleAddTag
      rw [ha.1.1, if_pos ⟨ha.1.2, ha.2⟩]
    rw [hstep]
    rw [List.nodup_cons] at hnd
    rw [ih (acc ++ [a]) ?_ hnd.2, List.append_assoc]
    · rfl
    · intro e he
      have hee := h e (List.mem_cons_of_mem a he)
      refine ⟨hee.1, ?_⟩
      intro hmem
      rcases List.mem_append.mp hmem with hm | hm
      · exact hee.2 hm
      · rw [List.mem_singleton] at hm
        subst hm
        exact hnd.1 he

theorem map_jsToLower_fixed (l : List String) (h : ∀ e ∈ l, jsToLower e = e) :
    l.map jsToLower = l := by
  induction l with
  | nil => rfl
  | cons a l ih =>
    rw [List.map_cons, h a (List.mem_cons_self a l),
      ih fun e he => h e (List.mem_cons_of_mem a he)]

theorem normalizeTags_canon (raw : List String) :
    ∀ e ∈ normalizeTags raw, canonTag e := by
  intro e he
  unfold normalizeTags at he
  have hcanon := foldl_handleAddTag_canon raw [] (by simp)
  have htake : ∀ x ∈ (raw.foldl handleAddTag []).take 5, canonTag x :=
    fun x hx => hcanon x ((List.take_sublist 5 _).mem hx)
  rw [map_jsToLower_fixed _
    (fun x hx => canonTag_toLower_fixed (htake x hx))] at he
  exact htake e he

theorem normalizeTags_eq_take (raw : List String) :
    normalizeTags raw = (raw.foldl handleAddTag []).take 5 := by
  unfold normalizeTags
  have hcanon := foldl_handleAddTag_canon raw [] (by simp)
  exact map_jsToLower_fixed _ fun x hx =>
    canonTag_toLower_fixed (hcanon x ((List.take_sublist 5 _).mem hx))

theorem normalizeTags_nodup (raw : List String) : (normalizeTags raw).Nodup := by
  rw [normalizeTags_eq_take]
  exact (List.take_sublist 5 _).nodup (foldl_handleAddTag_nodup raw [] List.nodup_nil)

theorem normalizeTags_idem (raw : List String) :
    normalizeTags (normalizeTags raw) = normalizeTags raw := by
  have hcanon := normalizeTags_canon raw
  have hnd := normalizeTags_nodup raw
  rw [normalizeTags_eq_take (normalizeTags raw)]
  rw [foldl_handleAddTag_fixed (normalizeTags raw) []
    (fun e he => ⟨hcanon e he, by simp⟩) hnd]
  rw [List.nil_append]
  rw [normalizeTags_eq_take raw, List.take_take]
  norm_num

/-! ## Arithmetic helper -/

theorem fdiv_pos_iff (a c : Int) (h : 0 < c) : 0 < a.fdiv c ↔ c ≤ a := by
  rw [Int.fdiv_eq_ediv _ (le_of_lt h), Int.lt_iff_add_one_le, zero_add,
    Int.le_ediv_iff_mul_le h, one_mul]

/-! ## Claims -/

/-- C2: every post created by the capture path stores
`expiresAt = createdAt + 24h` (fixed TTL of 24 hours), and no update
operation in the repository changes `expiresAt` after creation. -/
theorem claim_C2_ttl_invariant :
    (∀ (nowMs : Int) (imageUrl captionText ownerUid : String)
        (tags : List String) (email : String),
      (saveSnapToFirestore nowMs imageUrl captionText ownerUid tags email).expiresAt =
        (saveSnapToFirestore nowMs imageUrl captionText ownerUid tags email).createdAt +
          24 * 60 * 60 * 1000)
    ∧ ∀ (u : SnapUpdate) (s : SnapData),
        (applySnapUpdate u s).expiresAt = s.expiresAt := by
  constructor
  · intro nowMs imageUrl captionText ownerUid tags email
    rfl
  · intro u s
    cases u <;> rfl

/-- C3: the remaining-time display buckets into whole hours when at least
one hour remains (floor, e.g. 119 minutes reads "1h left"), else whole
minutes when at least one minute remains, else the literal "Expired"; and
elapsed time under one minute displays "Just now". -/
theorem claim_C3_expiry_buckets (nowMs expiresMs createdMs : Int) :
    (1000 * 60 * 60 ≤ expiresMs - nowMs →
      getTimeRemaining nowMs expiresMs =
        toString ((expiresMs - nowMs).fdiv (1000 * 60 * 60)) ++ "h left")
    ∧ (1000 * 60 ≤ expiresMs - nowMs → expiresMs - nowMs < 1000 * 60 * 60 →
      getTimeRemaining nowMs expiresMs =
        toString ((expiresMs - nowMs).fdiv (1000 * 60)) ++ "m left")
    ∧ (expiresMs - nowMs < 1000 * 60 →
      getTimeRemaining nowMs expiresMs = "Expired")
    ∧ (nowMs - createdMs < 1000 * 60 →
      getTimeAgo nowMs createdMs = "Just now")
    ∧ getTimeRemaining 0 (119 * 60000) = "1h left" := by
  refine ⟨?_, ?_, ?_, ?_, by decide⟩
  · intro h
    unfold getTimeRemaining
    rw [if_pos ((fdiv_pos_iff _ _ (by norm_num)).mpr h)]
    rfl
  · intro h₁ h₂
    unfold getTimeRemaining
    rw [if_neg (by rw [gt_iff_lt, fdiv_pos_iff _ _ (by norm_num)]; omega),
      if_pos ((fdiv_pos_iff _ _ (by norm_num)).mpr h₁)]
    rfl
  · intro h
    unfold getTimeRemaining
    rw [if_neg (by rw [gt_iff_lt, fdiv_pos_iff _ _ (by norm_num)]; omega),
      if_neg (by rw [gt_iff_lt, fdiv_pos_iff _ _ (by norm_num)]; omega)]
  · intro h
    unfold getTimeAgo
    rw [if_neg (by rw [gt_iff_lt, fdiv_pos_iff _ _ (by norm_num)]; omega),
      if_neg (by rw [gt_iff_lt, fdiv_pos_iff _ _ (by norm_num)]; omega)]

/-- C3 witness: the buckets evaluated at concrete instants. -/
theorem claim_C3_expiry_buckets_witness :
    getTimeRemaining 0 7200000 = "2h left"
    ∧ getTimeRemaining 0 180000 = "3m left"
    ∧ getTimeRemaining 0 59999 = "Expired"
    ∧ getTimeAgo 30000 0 = "Just now" := by
  refine ⟨?_, ?_, ?_, ?_⟩
  · exact ((claim_C3_expiry_buckets 0 7200000 0).1 (by decide)).trans (by decide)
  · exact ((claim_C3_expiry_buckets 0 180000 0).2.1 (by decide) (by decide)).trans
      (by decide)
  · exact (claim_C3_expiry_buckets 0 59999 0).2.2.1 (by decide)
  · exact (claim_C3_expiry_buckets 30000 0 0).2.2.2.1 (by decide)

/-- C8: expiry is monotone in time — once `expiresAt ≤ now₁` and
`now₁ ≤ now₂`, the post is still expired at `now₂`, and the discovery
pipeline never re-admits it for any snapshot or selected tag. -/
theorem claim_C8_expiry_monotone (p : Snap) (now₁ now₂ : Int)
    (h12 : now₁ ≤ now₂) (hexp : p.expiresAt ≤ now₁) :
    p.expiresAt ≤ now₂ ∧
      ∀ (snaps : List Snap) (selected : String),
        p ∉ fetchSnapsResult now₂ snaps selected := by
  have h2 : p.expiresAt ≤ now₂ := le_trans hexp h12
  refine ⟨h2, ?_⟩
  intro snaps selected hmem
  unfold fetchSnapsResult sortByExpiresDesc at hmem
  rw [(List.perm_insertionSort _ _).mem_iff] at hmem
  unfold discoveryFilter at hmem
  have hmem2 := (List.mem_filter.mp hmem).1
  unfold liveSnaps at hmem2
  have hlt := (List.mem_filter.mp hmem2).2
  rw [decide_eq_true_eq] at hlt
  omega

/-- C8 witness: a post expiring at 100 is expired at 100 and is absent
from every later fetch. -/
theorem claim_C8_expiry_monotone_witness :
    ({ id := "a", url := "u", caption := "c", owner := "o",
       interests := ["art"], expiresAt := 100, createdAt := 0,
       ownerEmail := "e", ownerFirstName := "f" } : Snap).expiresAt ≤ 200 ∧
      ∀ (snaps : List Snap) (selected : String),
        ({ id := "a", url := "u", caption := "c", owner := "o",
           interests := ["art"], expiresAt := 100, createdAt := 0,
           ownerEmail := "e", ownerFirstName := "f" } : Snap) ∉
          fetchSnapsResult 200 snaps selected :=
  claim_C8_expiry_monotone _ 100 200 (by decide) (by decide)

/-- C10: with the empty string selected, the guard in `filteredSnaps`
rejects every post and the fetch result is empty, even though the empty
string is a substring of every tag. -/
theorem claim_C10_empty_selected (nowMs : Int) (snaps : List Snap) :
    fetchSnapsResult nowMs snaps "" = [] ∧
      ∀ s : String, jsIncludes s "" = true := by
  constructor
  · unfold fetchSnapsResult discoveryFilter
    rw [show List.filter _ (liveSnaps nowMs snaps) = ([] : List Snap) from ?_]
    · rfl
    · rw [List.filter_eq_nil_iff]
      intro a _
      rw [if_pos rfl]
      exact Bool.false_ne_true
  · intro s
    unfold jsIncludes
    cases s.data with
    | nil => rfl
    | cons a l =>
      unfold containsAux
      rw [show List.isPrefixOf ([] : List Char) (a :: l) = true from rfl,
        Bool.true_or]

/-- C1 counterexample: the claimed biconditional fails for the empty
selected tag.  The post with tag list `["art"]` is live at time 0, the
empty string is a (case-insensitive) substring of `"art"`, yet the filter
returns nothing because the `!selected` guard fires first. -/
theorem claim_C1_counterexample :
    ¬ ∀ (snaps : List Snap) (t : String) (nowMs : Int) (p : Snap),
        p ∈ snaps → nowMs < p.expiresAt →
        (∃ i ∈ p.interests, jsIncludes (jsToLower i) (jsToLower t) = true) →
        p ∈ fetchSnapsResult nowMs snaps t := by
  intro h
  have hmem := h
    [{ id := "a", url := "u", caption := "c", owner := "o",
       interests := ["art"], expiresAt := 100, createdAt := 0,
       ownerEmail := "e", ownerFirstName := "f" }] "" 0
    { id := "a", url := "u", caption := "c", owner := "o",
      interests := ["art"], expiresAt := 100, createdAt := 0,
      ownerEmail := "e", ownerFirstName := "f" }
    (by decide) (by decide) ⟨"art", by decide, by decide⟩
  exact absurd hmem (by decide)

/-- C1 (amended to a non-empty selected tag): for every snapshot, every
non-empty tag `t` and every time, a live post passes the Discovery Filter
iff the lower-cased `t` is a substring of at least one of its lower-cased
tags. -/
theorem claim_C1_discovery_filter (snaps : List Snap) (t : String)
    (nowMs : Int) (ht : t ≠ "") (p : Snap) (hp : p ∈ snaps)
    (hlive : nowMs < p.expiresAt) :
    p ∈ fetchSnapsResult nowMs snaps t ↔
      ∃ i ∈ p.interests, jsIncludes (jsToLower i) (jsToLower t) = true := by
  unfold fetchSnapsResult sortByExpiresDesc
  rw [(List.perm_insertionSort _ _).mem_iff]
  unfold discoveryFilter
  rw [List.mem_filter]
  constructor
  · rintro ⟨_, hpred⟩
    rw [if_neg ht] at hpred
    rw [List.any_eq_true] at hpred
    obtain ⟨i, hi, hinc⟩ := hpred
    rw [List.mem_map] at hi
    obtain ⟨j, hj, rfl⟩ := hi
    exact ⟨j, hj, hinc⟩
  · rintro ⟨i, hi, hinc⟩
    refine ⟨?_, ?_⟩
    · unfold liveSnaps
      rw [List.mem_filter]
      exact ⟨hp, by rw [decide_eq_true_eq]; exact hlive⟩
    · rw [if_neg ht, List.any_eq_true]
      exact ⟨jsToLower i, List.mem_map.mpr ⟨i, hi, rfl⟩, hinc⟩

/-- C1 witness: the tag "Art" selects the live post tagged "artisan"
("art" is a substring of "artisan" after lower-casing). -/
theorem claim_C1_discovery_filter_witness :
    ({ id := "a", url := "u", caption := "c", owner := "o",
       interests := ["Artisan"], expiresAt := 100, createdAt := 0,
       ownerEmail := "e", ownerFirstName := "f" } : Snap) ∈
      fetchSnapsResult 0
        [{ id := "a", url := "u", caption := "c", owner := "o",
           interests := ["Artisan"], expiresAt := 100, createdAt := 0,
           ownerEmail := "e", ownerFirstName := "f" }] "Art" :=
  (claim_C1_discovery_filter _ "Art" 0 (by decide) _ (by decide)
    (by decide)).mpr ⟨"Artisan", by decide, by decide⟩

/-- C6: search resolution trims and lower-cases the raw input and then
resolves to (a) the first exact match in the tag universe, else (b) the
first tag containing the term as a substring, else (c) the trimmed
lower-cased term itself. -/
theorem claim_C6_search_resolution (search : String) (allTags : List String)
    (h : jsTrim search ≠ "") :
    (∀ tag, (allTags.find? fun tag =>
        jsToLower tag == jsToLower (jsTrim search)) = some tag →
      resolveSearch search allTags = some tag)
    ∧ ((allTags.find? fun tag =>
        jsToLower tag == jsToLower (jsTrim search)) = none →
      ∀ tag, (allTags.find? fun tag =>
          jsIncludes (jsToLower tag) (jsToLower (jsTrim search))) = some tag →
        resolveSearch search allTags = some tag)
    ∧ ((allTags.find? fun tag =>
        jsToLower tag == jsToLower (jsTrim search)) = none →
      (allTags.find? fun tag =>
        jsIncludes (jsToLower tag) (jsToLower (jsTrim search))) = none →
      resolveSearch search allTags = some (jsToLower (jsTrim search))) := by
  have hterm : jsToLower (jsTrim search) ≠ "" := by
    intro he
    exact h ((jsToLower_eq_empty_iff _).mp he)
  refine ⟨?_, ?_, ?_⟩
  · intro tag hfind
    have htag : jsToLower tag = jsToLower (jsTrim search) := by
      have := List.find?_some hfind
      rwa [beq_iff_eq] at this
    have htagne : tag ≠ "" := by
      intro he
      subst he
      exact hterm (by rw [← htag]; rfl)
    unfold resolveSearch
    rw [if_pos h]
    show some (jsOrStr
        (List.find? (fun tag => jsToLower tag == jsToLower (jsTrim search)) allTags)
        (jsOrStr
          (List.find? (fun tag =>
            jsIncludes (jsToLower tag) (jsToLower (jsTrim search))) allTags)
          (jsToLower (jsTrim search)))) = _
    rw [hfind]
    show some (if tag = "" then _ else tag) = some tag
    rw [if_neg htagne]
  · intro hnone tag hfind
    have hinc := List.find?_some hfind
    have htagne : tag ≠ "" := by
      intro he
      subst he
      have hdata : (jsTrim search).data ≠ [] := by
        intro hd
        exact h (String.ext hd)
      have : jsToLower ("" : String) = ("" : String) := rfl
      rw [this] at hinc
      unfold jsIncludes containsAux at hinc
      have : ((jsToLower (jsTrim search)).data).isEmpty = true := hinc
      rw [List.isEmpty_iff] at this
      have : (jsTrim search).data = [] := by
        have hlen := congrArg List.length this
        rw [jsToLower_data, List.length_map] at hlen
        exact List.eq_nil_of_length_eq_zero hlen
      exact hdata this
    unfold resolveSearch
    rw [if_pos h]
    show some (jsOrStr
        (List.find? (fun tag => jsToLower tag == jsToLower (jsTrim search)) allTags)
        (jsOrStr
          (List.find? (fun tag =>
            jsIncludes (jsToLower tag) (jsToLower (jsTrim search))) allTags)
          (jsToLower (jsTrim search)))) = _
    rw [hnone, hfind]
    show some (if tag = "" then _ else tag) = some tag
    rw [if_neg htagne]
  · intro hnone₁ hnone₂
    unfold resolveSearch
    rw [if_pos h]
    show some (jsOrStr
        (List.find? (fun tag => jsToLower tag == jsToLower (jsTrim search)) allTags)
        (jsOrStr
          (List.find? (fun tag =>
            jsIncludes (jsToLower tag) (jsToLower (jsTrim search))) allTags)
          (jsToLower (jsTrim search)))) = _
    rw [hnone₁, hnone₂]
    rfl

/-- C6 witness: `" MU "` has no exact match in
`["art", "museum", "music"]` and resolves to the first substring match
`"museum"`. -/
theorem claim_C6_search_resolution_witness :
    resolveSearch " MU " ["art", "museum", "music"] = some "museum" :=
  (claim_C6_search_resolution " MU " ["art", "museum", "music"]
    (by decide)).2.1 (by decide) "museum" (by decide)

/-- C7: for a duplicate-free favorites list `F` and the aggregated tag
universe `U`, the displayed chip sequence is exactly `F` followed by the
elements of `U` not in `F`, and it contains no duplicate tags. -/
theorem claim_C7_favorites_first (favorites : List String)
    (docs : List SnapDoc) (hfav : favorites.Nodup) :
    displayTags favorites (aggregateTags docs) =
      favorites ++ (aggregateTags docs).filter (fun t => decide (t ∉ favorites))
    ∧ (displayTags favorites (aggregateTags docs)).Nodup := by
  have hU := aggregateTags_nodup docs
  have hcontains : ∀ t : String,
      (!(favorites.contains t)) = decide (t ∉ favorites) := by
    intro t
    by_cases ht : t ∈ favorites <;>
      simp [ht, List.contains, List.elem_eq_mem]
  constructor
  · unfold displayTags
    congr 1
    exact List.filter_congr fun t _ => hcontains t
  · unfold displayTags
    refine List.Nodup.append hfav (hU.filter _) ?_
    rw [List.disjoint_left]
    intro a ha hafilter
    have hpred := (List.mem_filter.mp hafilter).2
    rw [hcontains a, decide_eq_true_eq] at hpred
    exact hpred ha

/-- C7 witness: favorites `["music"]` against the universe aggregated from
two posts. -/
theorem claim_C7_favorites_first_witness :
    displayTags ["music"]
      (aggregateTags
        [{ id := "1", url := "u", caption := "c", owner := "o",
           interests := some ["art", "Music"], expiresAt := 10, createdAt := 0 },
         { id := "2", url := "u", caption := "c", owner := "o",
           interests := some ["zap"], expiresAt := 10, createdAt := 0 }]) =
      ["music"] ++
        (aggregateTags
          [{ id := "1", url := "u", caption := "c", owner := "o",
             interests := some ["art", "Music"], expiresAt := 10, createdAt := 0 },
           { id := "2", url := "u", caption := "c", owner := "o",
             interests := some ["zap"], expiresAt := 10, createdAt := 0 }]).filter
          (fun t => decide (t ∉ (["music"] : List String)))
    ∧ (displayTags ["music"]
        (aggregateTags
          [{ id := "1", url := "u", caption := "c", owner := "o",
             interests := some ["art", "Music"], expiresAt := 10, createdAt := 0 },
           { id := "2", url := "u", caption := "c", owner := "o",
             interests := some ["zap"], expiresAt := 10, createdAt := 0 }])).Nodup :=
  claim_C7_favorites_first ["music"] _ (by decide)


/-! ## C9 support: concrete records and completion lemmas -/

/-- A well-typed live record tagged `["art"]`. -/
def goodDoc : RawSnapDoc :=
  { id := "1", url := "u", caption := "c", owner := "alice",
    interests := .strArr ["art"], expiresAt := 100, createdAt := 0 }

/-- A live record whose `interests` field holds the string `"music"`
instead of an array (truthy, wrong-typed). -/
def strTypedDoc : RawSnapDoc :=
  { id := "2", url := "u", caption := "c", owner := "bob",
    interests := .str "music", expiresAt := 100, createdAt := 0 }

/-- A live record whose `interests` field holds the number 42
(truthy, wrong-typed). -/
def numTypedDoc : RawSnapDoc :=
  { id := "3", url := "u", caption := "c", owner := "carol",
    interests := .num 42, expiresAt := 100, createdAt := 0 }

/-- A live record whose `interests` field is missing and whose owner has
no user document. -/
def missingDoc : RawSnapDoc :=
  { id := "4", url := "u", caption := "c", owner := "ghost",
    interests := .missing, expiresAt := 100, createdAt := 0 }

theorem filterRawSnaps_ok (selected : String) (snaps : List RawSnap)
    (h : ∀ s ∈ snaps, ∃ tags, s.interests = .strArr tags) :
    ∃ res, filterRawSnaps selected snaps = .ok res := by
  induction snaps with
  | nil => exact ⟨[], rfl⟩
  | cons snap rest ih =>
    obtain ⟨tags, htags⟩ := h snap (List.mem_cons_self _ _)
    obtain ⟨tail, htail⟩ := ih fun s hs => h s (List.mem_cons_of_mem _ hs)
    have hpred : ∃ b, filterRawSnapPred selected snap = .ok b := by
      unfold filterRawSnapPred
      cases hguard : (!snap.interests.truthy || (selected == "")) with
      | true => exact ⟨false, rfl⟩
      | false =>
        refine ⟨(tags.map jsToLower).any fun interest =>
          jsIncludes interest (jsToLower selected), ?_⟩
        rw [if_neg (by simp), htags]
    obtain ⟨b, hb⟩ := hpred
    refine ⟨if b then snap :: tail else tail, ?_⟩
    unfold filterRawSnaps
    rw [hb, htail]

theorem mapToLowerElems_ok (elems : List JsTagElem)
    (h : ∀ e ∈ elems, ∃ s, e = .str s) :
    ∃ ts, mapToLowerElems elems = .ok ts := by
  induction elems with
  | nil => exact ⟨[], rfl⟩
  | cons e rest ih =>
    obtain ⟨s, hs⟩ := h e (List.mem_cons_self _ _)
    obtain ⟨ts, hts⟩ := ih fun x hx => h x (List.mem_cons_of_mem _ hx)
    subst hs
    refine ⟨jsToLower s :: ts, ?_⟩
    unfold mapToLowerElems
    rw [hts]
    rfl

theorem flatMapInterests_str {v : JsField}
    (h : v = .missing ∨ ∃ tags, v = .strArr tags) :
    ∀ e ∈ flatMapInterests v, ∃ s, e = .str s := by
  intro e he
  rcases h with rfl | ⟨tags, rfl⟩
  · exact absurd he (List.not_mem_nil e)
  · unfold flatMapInterests at he
    rw [List.mem_map] at he
    obtain ⟨s, _, rfl⟩ := he
    exact ⟨s, rfl⟩

/-- C9 counterexample: recovery does not extend to wrong-typed tags
fields.  Alone, the well-typed record tagged `["art"]` is returned for the
selected tag `"art"`; adding one record whose `interests` is the string
`"music"` makes `snap.interests.map` raise a `TypeError`, the outer catch
runs `setSnaps([])`, and the whole fetch result — the good record
included — is empty.  A record whose `interests` is the number 42 aborts
the tag aggregation the same way. -/
theorem claim_C9_counterexample :
    fetchSnapsRawResult (fun _ => none) 0 [goodDoc] "art" =
      [assembleRawSnap (fun _ => none) goodDoc]
    ∧ fetchSnapsRawResult (fun _ => none) 0 [goodDoc, strTypedDoc] "art" = []
    ∧ aggregateRawTags [goodDoc, numTypedDoc] =
        .error "TypeError: tag.toLowerCase is not a function" :=
  ⟨rfl, rfl, rfl⟩

/-- C9 (amended to missing fields): a record whose `interests` field is
missing is processed with the empty tag set substituted (and a missing
owner identity with the label "Unknown"); assembly keeps every record,
aggregation is unchanged by replacing the missing field with the empty
list, and over a batch whose tags fields are otherwise well-typed arrays
both the aggregation and the feed assembly's filter complete normally
(no `TypeError`). -/
theorem claim_C9_missing_field_defaults (users : String → Option UserDoc)
    (docs : List RawSnapDoc) (d : RawSnapDoc)
    (hbad : d.interests = .missing) (huser : users d.owner = none)
    (hwell : ∀ d' ∈ docs, d'.interests = .missing ∨
      ∃ tags, d'.interests = .strArr tags) :
    (assembleRawSnap users d).interests = .strArr []
    ∧ (assembleRawSnap users d).ownerEmail = "Unknown"
    ∧ (docs.map (assembleRawSnap users)).length = docs.length
    ∧ (∀ pre post : List RawSnapDoc,
        aggregateRawTags (pre ++ d :: post) =
          aggregateRawTags (pre ++ { d with interests := .strArr [] } :: post))
    ∧ (∃ ts, aggregateRawTags docs = .ok ts)
    ∧ ∀ (nowMs : Int) (selected : String), ∃ res,
        filterRawSnaps selected
          ((docs.filter fun d' => nowMs < d'.expiresAt).map
            (assembleRawSnap users)) = .ok res := by
  refine ⟨?_, ?_, List.length_map _ _, ?_, ?_, ?_⟩
  · show jsOrEmptyArr d.interests = .strArr []
    rw [hbad]
    rfl
  · unfold assembleRawSnap
    rw [huser]
  · intro pre post
    unfold aggregateRawTags
    rw [List.flatMap_append, List.flatMap_cons, List.flatMap_append,
      List.flatMap_cons, hbad]
    rfl
  · obtain ⟨ts0, hts0⟩ := mapToLowerElems_ok
      (docs.flatMap fun d' => flatMapInterests d'.interests)
      (by
        intro e he
        rw [List.mem_flatMap] at he
        obtain ⟨d', hd', he⟩ := he
        exact flatMapInterests_str (hwell d' hd') e he)
    refine ⟨sortTags (uniq ts0), ?_⟩
    unfold aggregateRawTags
    show (match mapToLowerElems (docs.flatMap fun d' => flatMapInterests d'.interests) with
      | Except.ok normalizedTags => Except.ok (sortTags (uniq normalizedTags))
      | Except.error e => Except.error e) = Except.ok (sortTags (uniq ts0))
    rw [hts0]
  · intro nowMs selected
    apply filterRawSnaps_ok
    intro s hs
    rw [List.mem_map] at hs
    obtain ⟨d', hd', rfl⟩ := hs
    have hd'docs : d' ∈ docs := (List.mem_filter.mp hd').1
    show ∃ tags, jsOrEmptyArr d'.interests = .strArr tags
    rcases hwell d' hd'docs with hm | ⟨tags, ht⟩
    · exact ⟨[], by rw [hm]; rfl⟩
    · exact ⟨tags, by rw [ht]; rfl⟩

/-- C9 witness: a batch of one well-typed record and one record with a
missing tags field and unknown owner. -/
theorem claim_C9_missing_field_defaults_witness :
    (assembleRawSnap (fun _ => none) missingDoc).interests = .strArr []
    ∧ (assembleRawSnap (fun _ => none) missingDoc).ownerEmail = "Unknown"
    ∧ (([goodDoc, missingDoc].map (assembleRawSnap fun _ => none)).length =
        ([goodDoc, missingDoc] : List RawSnapDoc).length)
    ∧ (∀ pre post : List RawSnapDoc,
        aggregateRawTags (pre ++ missingDoc :: post) =
          aggregateRawTags (pre ++
            { missingDoc with interests := .strArr [] } :: post))
    ∧ (∃ ts, aggregateRawTags [goodDoc, missingDoc] = .ok ts)
    ∧ ∀ (nowMs : Int) (selected : String), ∃ res,
        filterRawSnaps selected
          (([goodDoc, missingDoc].filter fun d' => nowMs < d'.expiresAt).map
            (assembleRawSnap fun _ => none)) = .ok res :=
  claim_C9_missing_field_defaults (fun _ => none) [goodDoc, missingDoc]
    missingDoc rfl rfl
    (by
      intro d' hd'
      rcases List.mem_cons.mp hd' with rfl | hd'
      · exact Or.inr ⟨["art"], rfl⟩
      · rcases List.mem_cons.mp hd' with rfl | hd'
        · exact Or.inl rfl
        · exact absurd hd' (List.not_mem_nil _))

/-- C5: the aggregator returns the distinct lower-cased tags drawn from
every post's tag list, sorted ascending by the JavaScript string
comparator, and it returns the identical sequence on any permutation of
the post set. -/
theorem claim_C5_aggregator (docs₁ docs₂ : List SnapDoc)
    (hperm : docs₁.Perm docs₂) :
    aggregateTags docs₁ = aggregateTags docs₂
    ∧ (aggregateTags docs₁).Nodup
    ∧ List.Sorted strLe (aggregateTags docs₁)
    ∧ ∀ t, t ∈ aggregateTags docs₁ ↔
        ∃ d ∈ docs₁, ∃ i ∈ d.interests.getD [], jsToLower i = t :=
  ⟨aggregateTags_perm_eq hperm, aggregateTags_nodup _, aggregateTags_sorted _,
    fun t => mem_aggregateTags docs₁ t⟩

/-- C5 witness: two permutations of the same two posts aggregate to the
same sorted tag universe. -/
theorem claim_C5_aggregator_witness :
    aggregateTags
        [{ id := "1", url := "u", caption := "c", owner := "o",
           interests := some ["Music", "art"], expiresAt := 10, createdAt := 0 },
         { id := "2", url := "u", caption := "c", owner := "o",
           interests := some ["zap"], expiresAt := 10, createdAt := 0 }] =
      aggregateTags
        [{ id := "2", url := "u", caption := "c", owner := "o",
           interests := some ["zap"], expiresAt := 10, createdAt := 0 },
         { id := "1", url := "u", caption := "c", owner := "o",
           interests := some ["Music", "art"], expiresAt := 10, createdAt := 0 }] :=
  (claim_C5_aggregator _ _ (by decide)).1

/-- C4: tag normalization (trim, lower-case, drop empties, de-duplicate,
truncate to the first 5) is idempotent, produces at most 5 distinct
canonical tags, and sends `["  Art ", "art", "ART", "music"]` to
`["art", "music"]`. -/
theorem claim_C4_normalizer (raw : List String) :
    normalizeTags (normalizeTags raw) = normalizeTags raw
    ∧ (normalizeTags raw).Nodup
    ∧ (normalizeTags raw).length ≤ 5
    ∧ (∀ t ∈ normalizeTags raw, jsToLower (jsTrim t) = t ∧ t ≠ "")
    ∧ normalizeTags ["  Art ", "art", "ART", "music"] = ["art", "music"] := by
  refine ⟨normalizeTags_idem raw, normalizeTags_nodup raw, ?_, ?_, by decide⟩
  · rw [normalizeTags_eq_take]
    exact List.length_take_le 5 _
  · exact fun t ht => normalizeTags_canon raw t ht

/-- C4 witness: the normalizer evaluated on a concrete raw tag list. -/
theorem claim_C4_normalizer_witness :
    normalizeTags (normalizeTags ["  Art ", "art", "ART", "music"]) =
      normalizeTags ["  Art ", "art", "ART", "music"]
    ∧ (normalizeTags ["  Art ", "art", "ART", "music"]).Nodup
    ∧ (normalizeTags ["  Art ", "art", "ART", "music"]).length ≤ 5
    ∧ (∀ t ∈ normalizeTags ["  Art ", "art", "ART", "music"],
        jsToLower (jsTrim t) = t ∧ t ≠ "")
    ∧ normalizeTags ["  Art ", "art", "ART", "music"] = ["art", "music"] :=
  claim_C4_normalizer ["  Art ", "art", "ART", "music"]
